import Mathlib

set_option maxHeartbeats 1000000
set_option maxRecDepth 100000

/-!
Verification development for the WeKnora document-Q&A platform.

The file embeds, as executable Lean definitions, the parts of the repository
that the specification's claims are about:

* the two versions of the file-type classifier and upload-size validator
  (`internal/application/service`, two revisions of the same file);
* the HMAC token helpers (`internal/utils/hmac_token.go`);
* the multi-knowledge-base retrieval pipeline (Search, Rerank, Merge,
  Filter-Top-K stages and the Composite Retrieval Engine).  The pipeline's
  implementation is not part of the provided sources (only design documents
  describing it are), so those definitions are modelled from the
  specification; each of them carries a doc comment starting with
  `Modelled from the spec:`.

Strings, byte slices and Go maps are modelled by `String` / `List Char` /
association lists; `int64`/`uint64` quantities by `Nat`/`Int` with explicit
bounds where overflow matters; scores (`float64` in Go) by `ℚ`; fallible Go
functions returning `error` by `Option`/`Except`.
-/

/-! ## File processing strategies (shared constants of both revisions) -/

/-- Go constant `FileProcessFullParse`. -/
def FileProcessFullParse : String := "full_parse"

/-- Go constant `FileProcessConvertParse`. -/
def FileProcessConvertParse : String := "convert_parse"

/-- Go constant `FileProcessTextAsIs`. -/
def FileProcessTextAsIs : String := "text_as_is"

/-- Go constant `FileProcessStorePreview`. -/
def FileProcessStorePreview : String := "store_preview"

/-- Default size limit for the full-parse strategy: 50 MB. -/
def defaultFullParseLimit : Nat := 50 * 1024 * 1024

/-- Default size limit for the convert-parse strategy: 100 MB. -/
def defaultConvertParseLimit : Nat := 100 * 1024 * 1024

/-- Default size limit for the text-as-is strategy: 10 MB. -/
def defaultTextAsIsLimit : Nat := 10 * 1024 * 1024

/-- Default size limit for the store-preview strategy: 200 MB. -/
def defaultStorePreviewLimit : Nat := 200 * 1024 * 1024

/-!
## File-type classifier, revision A (src/unnamed/part_002)

Go sets (`map[string]bool`) are embedded as string lists, membership as list
membership.  The `init()` function of this revision registers four extra
e-book types in `fullParseTypes` when the Calibre `ebook-convert` binary is
on `PATH`; that environment dependency is made explicit as a `Bool`
parameter `calibreAvailable`.
-/

namespace FileTypeA

/-- Go `fullParseTypes` map literal of part_002 (before `init()` runs). -/
def fullParseTypesBase : List String :=
  ["pdf", "docx", "doc",
   "md", "markdown", "txt",
   "csv", "xlsx", "xls",
   "jpg", "jpeg", "png", "gif",
   "bmp", "tiff", "webp",
   "eml", "msg", "enex", "mht", "mhtml",
   "ipynb"]

/-- Extensions added to `fullParseTypes` by `init()` when `ebook-convert`
is found on `PATH`. -/
def calibreExtraTypes : List String := ["azw3", "azw", "prc", "mobi"]

/-- Go `fullParseTypes` of part_002 as read after `init()`. -/
def fullParseTypes (calibreAvailable : Bool) : List String :=
  fullParseTypesBase ++ (if calibreAvailable then calibreExtraTypes else [])

/-- Go `convertParseTypes` map literal of part_002. -/
def convertParseTypes : List String :=
  ["pptx", "ppt", "pptm", "potx", "potm",
   "rtf", "odt", "ods", "odp",
   "wps", "docm", "dotx", "dotm",
   "xlsm", "xltx", "xltm",
   "pages", "numbers", "key",
   "vsdx", "vsd", "pub",
   "hwp", "hwpx"]

/-- Go `textAsIsTypes` map literal of part_002. -/
def textAsIsTypes : List String :=
  ["py", "java", "go", "ts", "js",
   "jsx", "tsx", "vue", "c", "cpp",
   "h", "hpp", "cs", "rb", "rs",
   "php", "swift", "kt", "scala", "r",
   "lua", "pl", "dart",
   "zig", "nim", "asm", "s",
   "hs", "ex", "exs", "erl",
   "ml", "mli", "fs", "fsx",
   "clj", "cljs", "groovy",
   "v", "vhdl", "vhd",
   "sol",
   "json", "xml", "yaml", "yml", "toml",
   "ini", "conf", "cfg", "env", "properties",
   "gradle", "jsonl", "ndjson", "tsv",
   "sh", "bash", "zsh", "bat", "cmd",
   "ps1", "psm1",
   "html", "htm", "css", "less", "scss",
   "sass", "svg", "tex", "latex",
   "rst", "adoc", "org",
   "rmd", "qmd", "opml",
   "srt", "vtt", "ass", "ssa", "sub",
   "bib", "ris", "csl",
   "ics", "vcf",
   "log", "sql", "graphql", "proto", "thrift",
   "makefile", "dockerfile", "gemfile", "rakefile", "cmake",
   "gitignore", "editorconfig",
   "dockerignore", "prettierrc", "eslintrc", "babelrc",
   "npmrc", "yarnrc", "stylelintrc"]

/-- Go `storePreviewTypes` map literal of part_002. -/
def storePreviewTypes : List String :=
  ["stl", "obj", "fbx", "gltf", "glb",
   "3ds", "dae", "ply", "dxf", "psd"]

/-- Go `fileSizeLimits`: strategy to default byte limit. -/
def fileSizeLimits : List (String × Nat) :=
  [(FileProcessFullParse, defaultFullParseLimit),
   (FileProcessConvertParse, defaultConvertParseLimit),
   (FileProcessTextAsIs, defaultTextAsIsLimit),
   (FileProcessStorePreview, defaultStorePreviewLimit)]

/-- Go `fileTypeSizeOverrides` of part_002: per-type size overrides. -/
def fileTypeSizeOverrides : List (String × Nat) :=
  [("psd", 500 * 1024 * 1024),
   ("epub", 200 * 1024 * 1024),
   ("chm", 100 * 1024 * 1024),
   ("jpg", 20 * 1024 * 1024), ("jpeg", 20 * 1024 * 1024),
   ("png", 20 * 1024 * 1024), ("gif", 20 * 1024 * 1024),
   ("bmp", 20 * 1024 * 1024), ("tiff", 20 * 1024 * 1024),
   ("webp", 20 * 1024 * 1024)]

/-- Go `getFileProcessStrategy` of part_002: strategy for a normalised file
type, empty string for unknown types.  Tries full-parse, then
convert-parse, then text-as-is, then store-preview. -/
def getFileProcessStrategy (calibreAvailable : Bool) (fileType : String) : String :=
  if fileType ∈ fullParseTypes calibreAvailable then FileProcessFullParse
  else if fileType ∈ convertParseTypes then FileProcessConvertParse
  else if fileType ∈ textAsIsTypes then FileProcessTextAsIs
  else if fileType ∈ storePreviewTypes then FileProcessStorePreview
  else ""

/-- Go `getFileSizeLimit` of part_002: per-type overrides take precedence
over strategy defaults; unknown strategies fall back to the full-parse
default. -/
def getFileSizeLimit (calibreAvailable : Bool) (fileType : String) : Nat :=
  match fileTypeSizeOverrides.lookup fileType with
  | some override => override
  | none =>
    match fileSizeLimits.lookup (getFileProcessStrategy calibreAvailable fileType) with
    | some limit => limit
    | none => defaultFullParseLimit

/-- Go `validateFileSize` of part_002: `none` models a nil error, `some`
the machine-parseable `FILE_TOO_LARGE` error. -/
def validateFileSize (calibreAvailable : Bool) (fileType : String) (size : Nat) :
    Option String :=
  let limit := getFileSizeLimit calibreAvailable fileType
  if size > limit then
    some ("FILE_TOO_LARGE:" ++ fileType ++ ":" ++ toString size ++ ":" ++ toString limit)
  else none

end FileTypeA

/-!
## File-type classifier, revision B (src/unnamed/part_003)

In this revision `init()` only records Calibre availability in a flag that no
other function reads, so the classifier itself has no environment parameter.
-/

namespace FileTypeB

/-- Go `fullParseTypes` map literal of part_003. -/
def fullParseTypes : List String :=
  ["pdf", "txt", "md", "markdown",
   "docx", "doc", "xlsx", "xls",
   "png", "jpg", "jpeg", "gif",
   "bmp", "webp", "svg", "tiff", "tif",
   "csv", "tsv", "json", "jsonl",
   "xml", "html", "htm"]

/-- Go `convertParseTypes` map literal of part_003. -/
def convertParseTypes : List String :=
  ["pptx", "ppt", "odp",
   "rtf", "odt", "ods",
   "epub", "mobi", "azw3", "fb2",
   "tex", "latex"]

/-- Go `textAsIsTypes` map literal of part_003. -/
def textAsIsTypes : List String :=
  ["py", "js", "ts", "jsx", "tsx",
   "go", "rs", "java", "kt", "kts",
   "c", "h", "cpp", "hpp", "cc", "cxx",
   "cs", "swift", "m", "mm",
   "rb", "php", "pl", "pm", "lua",
   "r", "jl", "scala", "clj", "ex", "exs",
   "erl", "hrl", "hs", "elm", "dart",
   "v", "vhdl", "vhd",
   "sh", "bash", "zsh", "fish", "ps1",
   "bat", "cmd",
   "css", "scss", "sass", "less",
   "vue", "svelte",
   "yaml", "yml", "toml", "ini", "cfg",
   "conf", "properties", "env",
   "cmake", "gradle", "sbt",
   "rst", "adoc", "asciidoc", "org", "textile",
   "sql", "graphql", "gql",
   "proto", "avro", "thrift",
   "log", "diff", "patch",
   "gitignore", "dockerignore", "editorconfig"]

/-- Go `storePreviewTypes` map literal of part_003. -/
def storePreviewTypes : List String :=
  ["stl", "obj", "step", "stp", "iges", "igs",
   "dxf", "3mf", "fbx", "gltf", "glb",
   "mp3", "wav", "flac", "aac", "ogg", "wma",
   "mp4", "avi", "mkv", "mov", "wmv", "flv", "webm",
   "zip", "tar", "gz", "bz2", "xz", "7z", "rar",
   "psd", "ai", "sketch", "fig", "xd"]

/-- Go `fileSizeLimits` of part_003. -/
def fileSizeLimits : List (String × Nat) :=
  [(FileProcessFullParse, defaultFullParseLimit),
   (FileProcessConvertParse, defaultConvertParseLimit),
   (FileProcessTextAsIs, defaultTextAsIsLimit),
   (FileProcessStorePreview, defaultStorePreviewLimit)]

/-- Go `fileTypeSizeOverrides` of part_003: image types capped at 20 MB. -/
def fileTypeSizeOverrides : List (String × Nat) :=
  [("png", 20 * 1024 * 1024), ("jpg", 20 * 1024 * 1024), ("jpeg", 20 * 1024 * 1024),
   ("gif", 20 * 1024 * 1024), ("bmp", 20 * 1024 * 1024), ("webp", 20 * 1024 * 1024),
   ("svg", 20 * 1024 * 1024), ("tiff", 20 * 1024 * 1024), ("tif", 20 * 1024 * 1024)]

/-- Go `getFileProcessStrategy` of part_003.  Note the order differs from
part_002: full-parse, then text-as-is, then convert-parse, then
store-preview. -/
def getFileProcessStrategy (fileType : String) : String :=
  if fileType ∈ fullParseTypes then FileProcessFullParse
  else if fileType ∈ textAsIsTypes then FileProcessTextAsIs
  else if fileType ∈ convertParseTypes then FileProcessConvertParse
  else if fileType ∈ storePreviewTypes then FileProcessStorePreview
  else ""

/-- Go `getFileSizeLimit` of part_003. -/
def getFileSizeLimit (fileType : String) : Nat :=
  match fileTypeSizeOverrides.lookup fileType with
  | some override => override
  | none =>
    match fileSizeLimits.lookup (getFileProcessStrategy fileType) with
    | some limit => limit
    | none => defaultFullParseLimit

/-- Go `validateFileSize` of part_003: `none` models a nil error. -/
def validateFileSize (fileType : String) (size : Nat) : Option String :=
  let limit := getFileSizeLimit fileType
  if size > limit then
    some ("file size " ++ toString size ++ " bytes exceeds limit " ++
      toString limit ++ " bytes for type " ++ fileType)
  else none

end FileTypeB

/-! ## Divergence between the two classifier revisions -/

/-- Every file type mentioned by either revision's classification maps. -/
def allClassifiedTypes : List String :=
  FileTypeA.fullParseTypesBase ++ FileTypeA.calibreExtraTypes ++
  FileTypeA.convertParseTypes ++ FileTypeA.textAsIsTypes ++
  FileTypeA.storePreviewTypes ++
  FileTypeB.fullParseTypes ++ FileTypeB.convertParseTypes ++
  FileTypeB.textAsIsTypes ++ FileTypeB.storePreviewTypes

/-- File types on which the two revisions of `getFileProcessStrategy`
disagree (for at least one value of the Calibre flag of revision A). -/
def divergentTypes : List String :=
  ["eml", "msg", "enex", "mht", "mhtml", "ipynb", "azw3", "azw", "prc", "mobi",
   "pptm", "potx", "potm", "wps", "docm", "dotx", "dotm", "xlsm", "xltx", "xltm",
   "pages", "numbers", "key", "vsdx", "vsd", "pub", "hwp", "hwpx",
   "zig", "nim", "asm", "s", "ml", "mli", "fs", "fsx", "cljs", "groovy", "sol",
   "json", "xml", "jsonl", "ndjson", "tsv", "psm1", "html", "htm", "svg",
   "tex", "latex", "rmd", "qmd", "opml", "srt", "vtt", "ass", "ssa", "sub",
   "bib", "ris", "csl", "ics", "vcf",
   "makefile", "dockerfile", "gemfile", "rakefile",
   "prettierrc", "eslintrc", "babelrc", "npmrc", "yarnrc", "stylelintrc",
   "3ds", "dae", "ply", "tif", "epub", "fb2",
   "kts", "cc", "cxx", "m", "mm", "pm", "jl", "hrl", "elm", "fish", "svelte",
   "sbt", "asciidoc", "textile", "gql", "avro", "diff", "patch",
   "step", "stp", "iges", "igs", "3mf",
   "mp3", "wav", "flac", "aac", "ogg", "wma",
   "mp4", "avi", "mkv", "mov", "wmv", "flv", "webm",
   "zip", "tar", "gz", "bz2", "xz", "7z", "rar",
   "ai", "sketch", "fig", "xd"]

/-!
HMAC token helpers from `internal/utils/hmac_token.go`.

Go strings are modelled as `List Char`; `uint64`/`int64` as `Nat`/`Int` with
explicit bounds; `time.Now().Unix()` as an explicit `now : Nat` parameter
(Unix seconds); `time.Duration` as a `Nat` count of whole seconds.  The
composite `hex.EncodeToString(hmac.New(sha256.New, secret).Sum(payload))`
signature step is an opaque deterministic function of the secret and the
payload, passed in as the parameter `mac`; every theorem below holds for an
arbitrary such function.
-/

namespace utils
/-- Position of the first occurrence of `sep`, as the pair of the part
before it and the part after it; `none` when `sep` does not occur. -/
def splitFirst (sep : Char) : List Char → Option (List Char × List Char)
  | [] => none
  | c :: cs =>
    if c = sep then some ([], cs)
    else (splitFirst sep cs).map (fun p => (c :: p.1, p.2))

/-- Go `strings.SplitN(s, sep, n)` for a single-character separator: at most
`n` parts, the last part keeping the unsplit remainder. -/
def splitN (sep : Char) : Nat → List Char → List (List Char)
  | 0, _ => []
  | 1, cs => [cs]
  | n + 2, cs =>
    match splitFirst sep cs with
    | none => [cs]
    | some p => p.1 :: splitN sep (n + 1) p.2

/-- Decimal digit `d` as a character (Go `fmt` `%d` digits). -/
def digitChar (d : Nat) : Char := Char.ofNat (48 + d)

/-- Value of a decimal digit character, `none` for non-digits
(Go `strconv` digit scanning). -/
def charDigit (c : Char) : Option Nat :=
  if 48 ≤ c.toNat ∧ c.toNat ≤ 57 then some (c.toNat - 48) else none

/-- Accumulating decimal scanner underlying `strconv.ParseUint`. -/
def parseDigitsAux : List Char → Nat → Option Nat
  | [], acc => some acc
  | c :: cs, acc =>
    match charDigit c with
    | some d => parseDigitsAux cs (10 * acc + d)
    | none => none

/-- Unbounded decimal parse: all characters must be digits and the string
must be non-empty. -/
def parseDigits : List Char → Option Nat
  | [] => none
  | c :: cs => parseDigitsAux (c :: cs) 0

/-- Decimal representation of a natural number (Go `fmt` `%d` on an
unsigned value). -/
def natToChars (n : Nat) : List Char :=
  if n = 0 then [digitChar 0] else (Nat.digits 10 n).reverse.map digitChar

/-- Go `strconv.ParseUint(s, 10, 64)`: no sign accepted, value must fit in
64 bits. -/
def parseUint64 (cs : List Char) : Option Nat :=
  (parseDigits cs).bind (fun n => if n < 2 ^ 64 then some n else none)

/-- Go `strconv.ParseInt(s, 10, 64)`: optional sign, value must fit in a
signed 64-bit integer. -/
def parseInt64 (cs : List Char) : Option Int :=
  match cs with
  | [] => none
  | c :: t =>
    if c = '-' then
      (parseDigits t).bind (fun n => if n ≤ 2 ^ 63 then some (-(n : Int)) else none)
    else if c = '+' then
      (parseDigits t).bind (fun n => if n < 2 ^ 63 then some ((n : Int)) else none)
    else
      (parseDigits (c :: t)).bind (fun n => if n < 2 ^ 63 then some ((n : Int)) else none)

/-- Decimal representation of a signed integer (Go `fmt` `%d` on an
`int64`). -/
def intToChars (i : Int) : List Char :=
  if i < 0 then '-' :: natToChars i.natAbs else natToChars i.toNat

/-- Go `GenerateHMACToken`: builds
`knowledgeID + colon + tenantID + colon + expiry + colon + signature`, where
`expiry` is `now + ttl` in Unix seconds and the signature is the
hex-encoded HMAC-SHA256 of the payload (the opaque `mac` parameter). -/
def GenerateHMACToken (mac : List Char → List Char → List Char)
    (secret knowledgeID : List Char) (tenantID : Nat) (ttl now : Nat) : List Char :=
  let expiry := now + ttl
  let payload := knowledgeID ++ ':' :: (natToChars tenantID ++ ':' :: natToChars expiry)
  payload ++ ':' :: mac secret payload

/-- Go `ValidateHMACToken`: splits the token into at most four parts,
parses the tenant id and expiry, rejects expired tokens, rebuilds the
payload and compares the signature; returns the knowledge id and tenant id
on success. -/
def ValidateHMACToken (mac : List Char → List Char → List Char)
    (secret token : List Char) (now : Nat) : Except String (List Char × Nat) :=
  match splitN ':' 4 token with
  | [p0, p1, p2, p3] =>
    match parseUint64 p1 with
    | none => .error "invalid tenant ID"
    | some tenantID =>
      match parseInt64 p2 with
      | none => .error "invalid expiry"
      | some expiry =>
        if (now : Int) > expiry then .error "token expired"
        else
          let payload := p0 ++ ':' :: (natToChars tenantID ++ ':' :: intToChars expiry)
          if p3 = mac secret payload then .ok (p0, tenantID)
          else .error "invalid signature"
  | _ => .error "invalid token format"
end utils

/-- Sample deterministic signature function standing in for the
hex-encoded HMAC-SHA256 oracle in concrete instantiations. -/
def sampleMac : List Char → List Char → List Char := fun _ payload => payload

/-! ## Generic canonical sorting by an injective key -/

/-! ## Generic canonical sorting by an injective key -/

/-- Sort a list by a key into a linearly ordered type (insertion sort). -/
def keySort {α β : Type} [LinearOrder β] (f : α → β) (l : List α) : List α :=
  List.insertionSort (fun a b => f a ≤ f b) l

namespace Retrieval
/-! ## Data model (modelled from the spec, §3) -/

/-- Modelled from the spec: a retrieval modality, vector similarity search
or keyword search (glossary; the pipeline implementation is not among the
provided sources). -/
inductive Modality where
  | vector
  | keyword
deriving DecidableEq

/-- Modelled from the spec: the match-type tag of a candidate — vector,
keyword, or neighbor-expansion (§3, RetrievalCandidate). -/
inductive MatchType where
  | vector
  | keyword
  | neighborExpansion
deriving DecidableEq

/-- Modelled from the spec: a RetrievalCandidate, a scored reference to a
passage with knowledge-base and modality provenance (§3).  Identifiers are
opaque naturals; the score is a rational. -/
structure RetrievalCandidate where
  passageID : Nat
  kbID : Nat
  score : ℚ
  matchType : MatchType
deriving DecidableEq

/-- Modelled from the spec: a RerankedCandidate augments a candidate with
an optional rerank score, never destroying the original fields (§3). -/
structure RerankedCandidate where
  cand : RetrievalCandidate
  rerankScore : Option ℚ
deriving DecidableEq

/-- Modelled from the spec: effective score — rerank score if present,
else raw modality score (§3 invariants). -/
def RerankedCandidate.effectiveScore (rc : RerankedCandidate) : ℚ :=
  rc.rerankScore.getD rc.cand.score

/-- Modelled from the spec: a merged output entry combining all candidates
that reference one passage, keeping the best effective score and the list
of match types (§4.5). -/
structure MergedEntry where
  passageID : Nat
  kbID : Nat
  effScore : ℚ
  matchTypes : List MatchType
deriving DecidableEq

/-- Modelled from the spec: the configuration surface consumed by the core
(§6): configured modalities, per-modality thresholds, rerank threshold and
its degraded retry value, rerank max batch size, final top-K, and whether
neighbor-expansion duplicates are kept as separate output items. -/
structure Config where
  modalities : List Modality
  vectorThreshold : ℚ
  keywordThreshold : ℚ
  rerankThreshold : ℚ
  rerankDegradedThreshold : ℚ
  rerankMaxBatch : Nat
  topK : Nat
  keepNeighborDups : Bool

/-- Modelled from the spec: the modality-specific score threshold (§4.2,
thresholds are never cross-normalized). -/
def Config.thresholdFor (cfg : Config) : Modality → ℚ
  | .vector => cfg.vectorThreshold
  | .keyword => cfg.keywordThreshold

/-- Modelled from the spec: the backends as scoring oracles (§6): one
retriever adapter call per modality and knowledge base, and the rerank
service returning one relevance score per passage.  Both are deterministic
functions, so identical backend state yields identical answers. -/
structure Env where
  retrieve : Modality → Nat → Except String (List RetrievalCandidate)
  rerank : List RetrievalCandidate → Except String (List ℚ)

/-! ## Canonical sort keys -/

/-- Numeric code of a match type. -/
def mtIdx : MatchType → Nat
  | .vector => 0
  | .keyword => 1
  | .neighborExpansion => 2

/-- Injective key used to canonicalize candidate lists at fan-in points. -/
def candKey (c : RetrievalCandidate) : Nat ×ₗ Nat ×ₗ Nat ×ₗ ℚ :=
  toLex (c.passageID, toLex (c.kbID, toLex (mtIdx c.matchType, c.score)))

/-- Key ordering candidates by descending raw score (ties broken by the
identifiers), used for rerank batch truncation. -/
def rawKey (c : RetrievalCandidate) : ℚ ×ₗ Nat ×ₗ Nat ×ₗ Nat :=
  toLex (-c.score, toLex (c.passageID, toLex (c.kbID, mtIdx c.matchType)))

/-- Injective encoding of an optional rerank score. -/
def optScoreKey : Option ℚ → Nat ×ₗ ℚ
  | none => toLex (0, 0)
  | some q => toLex (1, q)

/-- Key ordering reranked candidates by descending effective score. -/
def rcKey (rc : RerankedCandidate) :
    ℚ ×ₗ (Nat ×ₗ Nat ×ₗ Nat ×ₗ ℚ) ×ₗ Nat ×ₗ ℚ :=
  toLex (-rc.effectiveScore, toLex (candKey rc.cand, optScoreKey rc.rerankScore))

/-- Injective numeric encoding of a match-type list (base four with
non-zero digits). -/
def mtsEnc : List MatchType → Nat
  | [] => 0
  | m :: l => 4 * mtsEnc l + (mtIdx m + 1)

/-- Key ordering merged entries by descending effective score, with the
deterministic passage-identifier tie-break of §4.6. -/
def entryKey (e : MergedEntry) : ℚ ×ₗ Nat ×ₗ Nat ×ₗ Nat :=
  toLex (-e.effScore, toLex (e.passageID, toLex (e.kbID, mtsEnc e.matchTypes)))

/-! ## Composite Retrieval Engine (modelled from the spec, §4.2) -/

/-- Modelled from the spec: the union of the successful modalities'
candidates for one knowledge base, each modality's list filtered by its own
threshold — candidates strictly below the threshold are rejected (§4.2). -/
def compositeUnion (env : Env) (cfg : Config) (kb : Nat) :
    List RetrievalCandidate :=
  cfg.modalities.flatMap (fun m =>
    match env.retrieve m kb with
    | .ok cs => cs.filter (fun c => decide (cfg.thresholdFor m ≤ c.score))
    | .error _ => [])

/-- Modelled from the spec: the failure diagnostic — how many configured
modality adapters failed for this knowledge base (§4.2, §7). -/
def compositeFailCount (env : Env) (cfg : Config) (kb : Nat) : Nat :=
  cfg.modalities.countP (fun m => !(env.retrieve m kb).isOk)

/-- Modelled from the spec: the Composite Retrieval Engine for one
knowledge base (§4.2).  It returns an error only when every configured
modality failed; otherwise it returns the union of the surviving
candidates together with the failure diagnostic. -/
def compositeRetrieve (env : Env) (cfg : Config) (kb : Nat) :
    Except String (List RetrievalCandidate × Nat) :=
  if cfg.modalities ≠ [] ∧ ∀ m ∈ cfg.modalities, (env.retrieve m kb).isOk = false
  then .error "all modalities failed"
  else .ok (compositeUnion env cfg kb, compositeFailCount env cfg kb)

/-! ## Search Stage (modelled from the spec, §4.3) -/

/-- Modelled from the spec: fan-out over the distinct targets and fan-in of
the per-target results; a per-target failure is excluded from the union and
the stage errors only when every target failed (§4.3).  The fan-in result
is canonicalized by sorting, so it does not depend on completion order
(§5). -/
def searchTargets (env : Env) (cfg : Config) (ts : List Nat) :
    Except String (List RetrievalCandidate) :=
  if ts ≠ [] ∧ ∀ kb ∈ ts, (compositeRetrieve env cfg kb).isOk = false
  then .error "all targets failed"
  else .ok (keySort candKey
    ((ts.filterMap (fun kb => (compositeRetrieve env cfg kb).toOption)).flatMap
      (fun p => p.1)))

/-- Modelled from the spec: the Search Stage — repeated knowledge-base ids
are deduplicated before fan-out (§4.3). -/
def searchStage (env : Env) (cfg : Config) (targets : List Nat) :
    Except String (List RetrievalCandidate) :=
  searchTargets env cfg targets.dedup

/-! ## Rerank Stage (modelled from the spec, §4.4) -/

/-- Modelled from the spec: the batch actually sent to the rerank service —
the candidate set sorted by descending raw score and truncated to the
configured maximum batch size (§4.4). -/
def rerankBatch (cfg : Config) (cands : List RetrievalCandidate) :
    List RetrievalCandidate :=
  (keySort rawKey cands).take cfg.rerankMaxBatch

/-- Modelled from the spec: candidates of the batch augmented with the
scores returned by the rerank service, position by position (§4.4). -/
def rerankScored (batch : List RetrievalCandidate) (scores : List ℚ) :
    List RerankedCandidate :=
  List.zipWith (fun c q => ⟨c, some q⟩) batch scores

/-- Modelled from the spec: threshold filtering with one degrade-retry —
candidates below the rerank threshold are dropped; if none survive, the
filter is retried exactly once with the relaxed degraded threshold before
an empty result is accepted (§4.4). -/
def rerankChosen (cfg : Config) (scored : List RerankedCandidate) :
    List RerankedCandidate :=
  let survivors := scored.filter
    (fun rc => decide (cfg.rerankThreshold ≤ rc.effectiveScore))
  if survivors.isEmpty then
    scored.filter
      (fun rc => decide (cfg.rerankDegradedThreshold ≤ rc.effectiveScore))
  else survivors

/-- Modelled from the spec: the Rerank Stage (§4.4).  On a rerank service
error the untouched pre-rerank candidates pass through (rerank is a quality
enhancement, not a hard dependency).  On success, threshold filtering with
degrade-retry is applied and survivors are re-ordered by descending
effective score. -/
def rerankStage (env : Env) (cfg : Config)
    (cands : List RetrievalCandidate) : List RerankedCandidate :=
  match env.rerank (rerankBatch cfg cands) with
  | .error _ => cands.map (fun c => ⟨c, none⟩)
  | .ok scores =>
    keySort rcKey (rerankChosen cfg (rerankScored (rerankBatch cfg cands) scores))

/-! ## Merge Stage (modelled from the spec, §4.5) -/

/-- Single-candidate entry. -/
def toEntry (rc : RerankedCandidate) : MergedEntry :=
  ⟨rc.cand.passageID, rc.cand.kbID, rc.effectiveScore, [rc.cand.matchType]⟩

/-- Modelled from the spec: combining two entries for the same passage —
highest available score, match-type lists concatenated (§4.5). -/
def mergeEntry (x e : MergedEntry) : MergedEntry :=
  ⟨x.passageID, x.kbID, max x.effScore e.effScore, x.matchTypes ++ e.matchTypes⟩

/-- Insert an entry, merging it into an existing entry with the same
passage identifier when one is present. -/
def insertMerged (e : MergedEntry) : List MergedEntry → List MergedEntry
  | [] => [e]
  | x :: xs =>
    if x.passageID = e.passageID then mergeEntry x e :: xs
    else x :: insertMerged e xs

/-- Modelled from the spec: one merge step; a neighbor-expansion candidate
is kept as a separate item when so configured (§3 invariants, §4.5). -/
def mergeStep (cfg : Config) (acc : List MergedEntry)
    (rc : RerankedCandidate) : List MergedEntry :=
  if cfg.keepNeighborDups ∧ rc.cand.matchType = .neighborExpansion
  then acc ++ [toEntry rc]
  else insertMerged (toEntry rc) acc

/-- Modelled from the spec: the Merge Stage deduplicates candidates that
reference the same passage (§4.5). -/
def mergeStage (cfg : Config) (rcs : List RerankedCandidate) :
    List MergedEntry :=
  rcs.foldl (mergeStep cfg) []

/-! ## Filter-Top-K Stage and the orchestrator (modelled from the spec,
§4.6, §4.7) -/

/-- Modelled from the spec: sort by descending effective score with the
deterministic passage-identifier tie-break, truncate to K (§4.6). -/
def filterTopK (cfg : Config) (entries : List MergedEntry) :
    List MergedEntry :=
  (keySort entryKey entries).take cfg.topK

/-- Modelled from the spec: the Pipeline Orchestrator — Search, Rerank,
Merge, Filter-Top-K in order; the only request-level error is the Search
Stage's all-targets-failed error (§4.7, §7). -/
def runPipeline (env : Env) (cfg : Config) (targets : List Nat) :
    Except String (List MergedEntry) :=
  match searchStage env cfg targets with
  | .error e => .error e
  | .ok cands => .ok (filterTopK cfg (mergeStage cfg (rerankStage env cfg cands)))

/-- Sample configuration: both modalities, vector threshold 2, keyword
threshold 0, rerank threshold 0, degraded threshold 0, max batch 10,
top-K 5, no neighbor duplicates. -/
def cfgW2 : Config := ⟨[.vector, .keyword], 2, 0, 0, 0, 10, 5, false⟩

/-- Sample backends: the vector adapter succeeds with one candidate scored
exactly at the vector threshold, the keyword adapter fails; the rerank
service scores every passage 1. -/
def envW2 : Env :=
  ⟨fun m kb => match m with
    | .vector => .ok [⟨1, kb, 2, .vector⟩]
    | .keyword => .error "keyword backend timeout",
   fun cs => .ok (cs.map (fun _ => 1))⟩

/-- Configuration whose rerank threshold (10) and degraded threshold (5)
are above every rerank score the sample backend returns. -/
def cfgX : Config := ⟨[.vector], 0, 0, 10, 5, 10, 10, false⟩

/-- Backends for which retrieval of knowledge base 1 succeeds with one
candidate but the rerank service scores every passage 0. -/
def envX : Env :=
  ⟨fun m kb => match m with
    | .vector => if kb = 1 then .ok [⟨1, 1, 1, .vector⟩] else .ok []
    | .keyword => .ok [],
   fun cs => .ok (cs.map (fun _ => 0))⟩

/-- Backends whose rerank service always fails. -/
def envF : Env :=
  ⟨fun m _ => match m with
    | .vector => .ok [⟨1, 1, 1, .vector⟩]
    | .keyword => .ok [],
   fun _ => .error "rerank service overloaded"⟩

/-- Configuration with rerank max batch 2, rerank threshold 1. -/
def cfgT : Config := ⟨[.vector], 0, 0, 1, 0, 2, 5, false⟩

/-- Three candidates for knowledge base 1 (one more than the max batch);
the rerank service echoes raw scores. -/
def envT3 : Env :=
  ⟨fun m kb => match m with
    | .vector => if kb = 1
        then .ok [⟨1, 1, 3, .vector⟩, ⟨2, 1, 2, .vector⟩, ⟨3, 1, 1, .vector⟩]
        else .ok []
    | .keyword => .ok [],
   fun cs => .ok (cs.map (fun c => c.score))⟩

/-- Four candidates for knowledge base 1 (twice the max batch). -/
def envT4 : Env :=
  ⟨fun m kb => match m with
    | .vector => if kb = 1
        then .ok [⟨1, 1, 4, .vector⟩, ⟨2, 1, 3, .vector⟩,
                  ⟨3, 1, 2, .vector⟩, ⟨4, 1, 1, .vector⟩]
        else .ok []
    | .keyword => .ok [],
   fun cs => .ok (cs.map (fun c => c.score))⟩

/-- The unioned candidate sets of the two scenarios. -/
def candsT3 : List RetrievalCandidate :=
  [⟨1, 1, 3, .vector⟩, ⟨2, 1, 2, .vector⟩, ⟨3, 1, 1, .vector⟩]

def candsT4 : List RetrievalCandidate :=
  [⟨1, 1, 4, .vector⟩, ⟨2, 1, 3, .vector⟩, ⟨3, 1, 2, .vector⟩, ⟨4, 1, 1, .vector⟩]
end Retrieval

/-! ## Theorems: canonical sorting -/

/-- Sorting is a permutation of the input. -/
theorem keySort_perm {α β : Type} [LinearOrder β] (f : α → β) (l : List α) :
    List.Perm (keySort f l) l :=
  List.perm_insertionSort _ l

/-- The result of `keySort` is sorted by the key. -/
theorem keySort_sorted {α β : Type} [LinearOrder β] (f : α → β) (l : List α) :
    List.Sorted (fun a b => f a ≤ f b) (keySort f l) := by
  haveI : IsTotal α (fun a b => f a ≤ f b) := ⟨fun a b => le_total (f a) (f b)⟩
  haveI : IsTrans α (fun a b => f a ≤ f b) := ⟨fun _ _ _ hab hbc => le_trans hab hbc⟩
  exact List.sorted_insertionSort _ l

/-- For an injective key, sorting is a canonical form: permutations sort to
the same list. -/
theorem keySort_eq_of_perm {α β : Type} [LinearOrder β] (f : α → β)
    (hf : Function.Injective f) {l₁ l₂ : List α} (h : List.Perm l₁ l₂) :
    keySort f l₁ = keySort f l₂ := by
  haveI : IsAntisymm α (fun a b => f a ≤ f b) :=
    ⟨fun _ _ h1 h2 => hf (le_antisymm h1 h2)⟩
  exact List.eq_of_perm_of_sorted
    ((keySort_perm f l₁).trans (h.trans (keySort_perm f l₂).symm))
    (keySort_sorted f l₁) (keySort_sorted f l₂)

theorem keySort_ne_nil {α β : Type} [LinearOrder β] (f : α → β) (l : List α)
    (h : l ≠ []) : keySort f l ≠ [] := by
  intro hcontra
  have h1 := (keySort_perm f l).length_eq
  rw [hcontra] at h1
  exact h (List.length_eq_zero.mp h1.symm)

/-! ## Theorems: file-type classification (claims C9, C10) -/

/-- On every type either revision classifies, the revisions agree unless the
type is in `divergentTypes` (checked by evaluation). -/
theorem strategy_agreement_on_classified :
    ∀ ft ∈ allClassifiedTypes, ft ∈ divergentTypes ∨
      (FileTypeA.getFileProcessStrategy false ft = FileTypeB.getFileProcessStrategy ft ∧
       FileTypeA.getFileProcessStrategy true ft = FileTypeB.getFileProcessStrategy ft) := by
  decide

/-- A file type outside both revisions' maps gets the empty strategy from
revision A. -/
theorem strategyA_of_not_classified (cal : Bool) (ft : String)
    (h : ft ∉ allClassifiedTypes) : FileTypeA.getFileProcessStrategy cal ft = "" := by
  simp only [allClassifiedTypes, List.mem_append, not_or] at h
  obtain ⟨⟨⟨⟨⟨⟨⟨⟨h1, h2⟩, h3⟩, h4⟩, h5⟩, h6⟩, h7⟩, h8⟩, h9⟩ := h
  have hfull : ft ∉ FileTypeA.fullParseTypes cal := by
    cases cal <;> simp [FileTypeA.fullParseTypes, h1, h2]
  simp [FileTypeA.getFileProcessStrategy, hfull, h3, h4, h5]

/-- A file type outside both revisions' maps gets the empty strategy from
revision B. -/
theorem strategyB_of_not_classified (ft : String)
    (h : ft ∉ allClassifiedTypes) : FileTypeB.getFileProcessStrategy ft = "" := by
  simp only [allClassifiedTypes, List.mem_append, not_or] at h
  obtain ⟨⟨⟨⟨⟨⟨⟨⟨h1, h2⟩, h3⟩, h4⟩, h5⟩, h6⟩, h7⟩, h8⟩, h9⟩ := h
  simp [FileTypeB.getFileProcessStrategy, h6, h7, h8, h9]

/-- Claim C9: in both revisions, `validateFileSize` accepts exactly the
sizes up to the file type's limit — it returns nil iff the size is at most
`getFileSizeLimit`; a size exactly at the limit is accepted and a size one
byte over yields an error. -/
theorem validateFileSize_iff_le_limit (cal : Bool) (ft : String) (size : Nat) :
    (FileTypeA.validateFileSize cal ft size = none ↔
      size ≤ FileTypeA.getFileSizeLimit cal ft) ∧
    (FileTypeB.validateFileSize ft size = none ↔
      size ≤ FileTypeB.getFileSizeLimit ft) ∧
    FileTypeA.validateFileSize cal ft (FileTypeA.getFileSizeLimit cal ft) = none ∧
    FileTypeA.validateFileSize cal ft (FileTypeA.getFileSizeLimit cal ft + 1) ≠ none ∧
    FileTypeB.validateFileSize ft (FileTypeB.getFileSizeLimit ft) = none ∧
    FileTypeB.validateFileSize ft (FileTypeB.getFileSizeLimit ft + 1) ≠ none := by
  have gen : ∀ (limit sz : Nat) (msg : String),
      ((if sz > limit then some msg else none) = none ↔ sz ≤ limit) := by
    intro limit sz msg
    by_cases h : sz > limit
    · rw [if_pos h]
      exact iff_of_false (by simp) (by omega)
    · rw [if_neg h]
      exact iff_of_true rfl (by omega)
  refine ⟨gen _ _ _, gen _ _ _, (gen _ _ _).mpr le_rfl, ?_, (gen _ _ _).mpr le_rfl, ?_⟩
  · intro h
    have := (gen (FileTypeA.getFileSizeLimit cal ft)
      (FileTypeA.getFileSizeLimit cal ft + 1) _).mp h
    omega
  · intro h
    have := (gen (FileTypeB.getFileSizeLimit ft)
      (FileTypeB.getFileSizeLimit ft + 1) _).mp h
    omega

theorem validateFileSize_iff_le_limit_witness :
    FileTypeA.validateFileSize false "pdf" (FileTypeA.getFileSizeLimit false "pdf") = none ∧
    FileTypeB.validateFileSize "pdf" (FileTypeB.getFileSizeLimit "pdf" + 1) ≠ none :=
  ⟨(validateFileSize_iff_le_limit false "pdf" 0).2.2.1,
   (validateFileSize_iff_le_limit false "pdf" 0).2.2.2.2.2⟩

/-- Claim C10 counterexample: the two revisions of `getFileProcessStrategy`
are not equivalent — on "tex", revision A returns text-as-is while revision
B returns convert-parse, for both values of revision A's Calibre flag. -/
theorem fileProcessStrategy_divergent_tex :
    FileTypeA.getFileProcessStrategy false "tex" = FileProcessTextAsIs ∧
    FileTypeB.getFileProcessStrategy "tex" = FileProcessConvertParse ∧
    FileTypeA.getFileProcessStrategy false "tex" ≠
      FileTypeB.getFileProcessStrategy "tex" ∧
    FileTypeA.getFileProcessStrategy true "tex" ≠
      FileTypeB.getFileProcessStrategy "tex" := by
  refine ⟨?_, ?_, ?_, ?_⟩ <;> decide

/-- Claim C10 (amended): outside the explicit divergence list the two
revisions of the file-type classifier agree (both on commonly classified
types and on all strings neither classifies), and on every type of the
divergence list they disagree for at least one value of the Calibre
flag. -/
theorem fileProcessStrategy_agreement :
    (∀ (cal : Bool) (ft : String), ft ∉ divergentTypes →
      FileTypeA.getFileProcessStrategy cal ft =
        FileTypeB.getFileProcessStrategy ft) ∧
    (∀ ft ∈ divergentTypes,
      FileTypeA.getFileProcessStrategy false ft ≠
          FileTypeB.getFileProcessStrategy ft ∨
        FileTypeA.getFileProcessStrategy true ft ≠
          FileTypeB.getFileProcessStrategy ft) := by
  constructor
  · intro cal ft hft
    by_cases hmem : ft ∈ allClassifiedTypes
    · rcases strategy_agreement_on_classified ft hmem with h | h
      · exact absurd h hft
      · cases cal
        · exact h.1
        · exact h.2
    · rw [strategyA_of_not_classified cal ft hmem,
        strategyB_of_not_classified ft hmem]
  · decide

theorem fileProcessStrategy_agreement_witness :
    ("pdf" ∉ divergentTypes) ∧
    FileTypeA.getFileProcessStrategy false "pdf" =
      FileTypeB.getFileProcessStrategy "pdf" :=
  ⟨by decide, fileProcessStrategy_agreement.1 false "pdf" (by decide)⟩

/-! ## Theorems: HMAC token round-trip (claim C8) -/

namespace utils
/-- Splitting recovers the prefix before the first separator. -/
theorem splitFirst_append (sep : Char) (a r : List Char) (ha : sep ∉ a) :
    splitFirst sep (a ++ sep :: r) = some (a, r) := by
  induction a with
  | nil => simp [splitFirst]
  | cons c t ih =>
    have hc : c ≠ sep := fun h => ha (h ▸ List.mem_cons_self c t)
    have ht : sep ∉ t := fun h => ha (List.mem_cons_of_mem _ h)
    simp [splitFirst, hc, ih ht]

/-- Unfolding equation of `splitN` at `n + 2`. -/
theorem splitN_two_plus (sep : Char) (n : Nat) (cs : List Char) :
    splitN sep (n + 2) cs =
      match splitFirst sep cs with
      | none => [cs]
      | some p => p.1 :: splitN sep (n + 1) p.2 := rfl

/-- Splitting a four-part token with separator-free first three parts. -/
theorem splitN_four (sep : Char) (a b c d : List Char)
    (ha : sep ∉ a) (hb : sep ∉ b) (hc : sep ∉ c) :
    splitN sep 4 (a ++ sep :: (b ++ sep :: (c ++ sep :: d))) = [a, b, c, d] := by
  show splitN sep (2 + 2) _ = _
  rw [splitN_two_plus, splitFirst_append sep a _ ha]
  show a :: splitN sep (1 + 2) _ = _
  rw [splitN_two_plus, splitFirst_append sep b _ hb]
  show a :: b :: splitN sep (0 + 2) _ = _
  rw [splitN_two_plus, splitFirst_append sep c _ hc]
  rfl

/-- Scanning a digit character returns its value. -/
theorem charDigit_digitChar (d : Nat) (hd : d ≤ 9) :
    charDigit (digitChar d) = some d := by
  interval_cases d <;> decide

/-- Digit characters are not the colon separator. -/
theorem digitChar_ne_colon (d : Nat) (hd : d ≤ 9) : digitChar d ≠ ':' := by
  interval_cases d <;> decide

/-- Digit characters are not a minus sign. -/
theorem digitChar_ne_minus (d : Nat) (hd : d ≤ 9) : digitChar d ≠ '-' := by
  interval_cases d <;> decide

/-- Digit characters are not a plus sign. -/
theorem digitChar_ne_plus (d : Nat) (hd : d ≤ 9) : digitChar d ≠ '+' := by
  interval_cases d <;> decide

/-- The decimal representation of a natural number contains no colon. -/
theorem colon_not_mem_natToChars (n : Nat) : ':' ∉ natToChars n := by
  unfold natToChars
  split
  · decide
  · intro hmem
    obtain ⟨d, hd, hEq⟩ := List.mem_map.mp hmem
    have hd' : d < 10 :=
      Nat.digits_lt_base (by norm_num) (List.mem_reverse.mp hd)
    exact digitChar_ne_colon d (Nat.lt_succ_iff.mp hd') hEq

/-- The scanner evaluates a digit list to its base-ten value. -/
theorem parseDigitsAux_digits (L : List Nat) (hL : ∀ d ∈ L, d ≤ 9) (acc : Nat) :
    parseDigitsAux (L.map digitChar) acc =
      some (L.foldl (fun a d => 10 * a + d) acc) := by
  induction L generalizing acc with
  | nil => rfl
  | cons d t ih =>
    have hd : d ≤ 9 := hL d (List.mem_cons_self d t)
    simp only [List.map_cons, parseDigitsAux, charDigit_digitChar d hd,
      List.foldl_cons]
    exact ih (fun x hx => hL x (List.mem_cons_of_mem _ hx)) (10 * acc + d)

/-- Folding most-significant-first digits agrees with `Nat.ofDigits`. -/
theorem foldl_reverse_eq_ofDigits (L : List Nat) :
    L.reverse.foldl (fun a d => 10 * a + d) 0 = Nat.ofDigits 10 L := by
  induction L with
  | nil => simp [Nat.ofDigits]
  | cons d t ih =>
    simp only [List.reverse_cons, List.foldl_append, ih, Nat.ofDigits_cons,
      List.foldl_cons, List.foldl_nil]
    omega

/-- On non-empty input, `parseDigits` is the accumulating scanner. -/
theorem parseDigits_ne_nil (cs : List Char) (h : cs ≠ []) :
    parseDigits cs = parseDigitsAux cs 0 := by
  cases cs with
  | nil => exact absurd rfl h
  | cons c t => rfl

/-- Decimal parsing inverts decimal printing. -/
theorem parseDigits_natToChars (n : Nat) : parseDigits (natToChars n) = some n := by
  unfold natToChars
  split
  · rename_i h
    subst h
    decide
  · rename_i h
    have hdig : Nat.digits 10 n ≠ [] := Nat.digits_ne_nil_iff_ne_zero.mpr h
    have hlt : ∀ d ∈ (Nat.digits 10 n).reverse, d ≤ 9 := fun d hd =>
      Nat.lt_succ_iff.mp (Nat.digits_lt_base (by norm_num) (List.mem_reverse.mp hd))
    rw [parseDigits_ne_nil _ (by simpa using hdig),
      parseDigitsAux_digits _ hlt 0, foldl_reverse_eq_ofDigits,
      Nat.ofDigits_digits]

/-- The decimal representation starts with a digit character. -/
theorem natToChars_head (n : Nat) :
    ∃ d t, natToChars n = digitChar d :: t ∧ d ≤ 9 := by
  unfold natToChars
  split
  · exact ⟨0, [], rfl, by norm_num⟩
  · rename_i h
    have hdig : Nat.digits 10 n ≠ [] := Nat.digits_ne_nil_iff_ne_zero.mpr h
    cases hrev : (Nat.digits 10 n).reverse with
    | nil => exact absurd (by simpa using hrev) hdig
    | cons d t =>
      refine ⟨d, t.map digitChar, by rw [List.map_cons], ?_⟩
      have : d ∈ Nat.digits 10 n := List.mem_reverse.mp (hrev ▸ List.mem_cons_self d t)
      exact Nat.lt_succ_iff.mp (Nat.digits_lt_base (by norm_num) this)

/-- Parsing a printed 64-bit-bounded natural as `uint64` succeeds. -/
theorem parseUint64_natToChars (n : Nat) (h : n < 2 ^ 64) :
    parseUint64 (natToChars n) = some n := by
  have h' : n < 18446744073709551616 := by omega
  simp [parseUint64, parseDigits_natToChars, h']

/-- Parsing a printed 63-bit-bounded natural as `int64` succeeds. -/
theorem parseInt64_natToChars (n : Nat) (h : n < 2 ^ 63) :
    parseInt64 (natToChars n) = some ((n : Nat) : Int) := by
  obtain ⟨d, t, hcons, hd⟩ := natToChars_head n
  rw [hcons]
  have h' : n < 9223372036854775808 := by omega
  simp only [parseInt64, if_neg (digitChar_ne_minus d hd),
    if_neg (digitChar_ne_plus d hd), ← hcons, parseDigits_natToChars]
  simp [h']

/-- Printing a non-negative integer agrees with printing the natural. -/
theorem intToChars_natCast (n : Nat) : intToChars ((n : Nat) : Int) = natToChars n := by
  simp [intToChars, Int.toNat_natCast, not_lt.mpr (Int.natCast_nonneg n)]

/-- Claim C8: validating a freshly generated token round-trips.  For every
deterministic signature function, secret, knowledge id without a colon,
64-bit tenant id, ttl of at least one second (with the expiry fitting in an
`int64`), validation at the generation instant returns exactly the original
knowledge id and tenant id with no error. -/
theorem generate_validate_roundtrip (mac : List Char → List Char → List Char)
    (secret kid : List Char) (tid ttl now : Nat)
    (hk : ':' ∉ kid) (httl : 1 ≤ ttl) (htid : tid < 2 ^ 64)
    (hexp : now + ttl < 2 ^ 63) :
    ValidateHMACToken mac secret (GenerateHMACToken mac secret kid tid ttl now) now
      = .ok (kid, tid) := by
  have hA : ':' ∉ natToChars tid := colon_not_mem_natToChars tid
  have hB : ':' ∉ natToChars (now + ttl) := colon_not_mem_natToChars (now + ttl)
  have htoken : GenerateHMACToken mac secret kid tid ttl now
      = kid ++ ':' :: (natToChars tid ++ ':' :: (natToChars (now + ttl) ++ ':' ::
          mac secret (kid ++ ':' :: (natToChars tid ++ ':' :: natToChars (now + ttl))))) := by
    simp [GenerateHMACToken, List.append_assoc]
  rw [htoken]
  unfold ValidateHMACToken
  rw [splitN_four ':' kid (natToChars tid) (natToChars (now + ttl)) _ hk hA hB]
  simp only [parseUint64_natToChars tid htid,
    parseInt64_natToChars (now + ttl) hexp]
  have hnotgt : ¬ ((now : Int) > ((now + ttl : Nat) : Int)) := by
    push_cast
    omega
  rw [if_neg hnotgt, intToChars_natCast]
  simp
end utils

theorem generate_validate_roundtrip_witness :
    (':' ∉ ("knowledge-123".toList)) ∧
    utils.ValidateHMACToken sampleMac ("test-secret".toList)
      (utils.GenerateHMACToken sampleMac ("test-secret".toList)
        ("knowledge-123".toList) 42 300 1700000000) 1700000000
      = .ok ("knowledge-123".toList, 42) :=
  ⟨by decide, utils.generate_validate_roundtrip sampleMac ("test-secret".toList)
    ("knowledge-123".toList) 42 300 1700000000
    (by decide) (by decide) (by decide) (by decide)⟩


/-! ## Theorems: retrieval pipeline (claims C1 to C7) -/

namespace Retrieval
theorem mtIdx_injective : Function.Injective mtIdx := by
  intro a b h
  cases a <;> cases b <;> simp_all [mtIdx]

theorem candKey_injective : Function.Injective candKey := by
  intro a b h
  obtain ⟨p, k, sc, m⟩ := a
  obtain ⟨p', k', sc', m'⟩ := b
  simp only [candKey, toLex_inj, Prod.mk.injEq] at h
  obtain ⟨h1, h2, h3, h4⟩ := h
  simp [h1, h2, h4, mtIdx_injective h3]

theorem rawKey_injective : Function.Injective rawKey := by
  intro a b h
  obtain ⟨p, k, sc, m⟩ := a
  obtain ⟨p', k', sc', m'⟩ := b
  simp only [rawKey, toLex_inj, Prod.mk.injEq, neg_inj] at h
  obtain ⟨h1, h2, h3, h4⟩ := h
  simp [h1, h2, h3, mtIdx_injective h4]

theorem optScoreKey_injective : Function.Injective optScoreKey := by
  intro a b h
  cases a <;> cases b <;> simp only [optScoreKey] at h
  · rfl
  · have h' := congrArg (fun p => (ofLex p).1) h
    simp at h'
  · have h' := congrArg (fun p => (ofLex p).1) h
    simp at h'
  · have h' := toLex_inj.mp h
    simp_all

theorem rcKey_injective : Function.Injective rcKey := by
  intro a b h
  obtain ⟨c, o⟩ := a
  obtain ⟨c', o'⟩ := b
  simp only [rcKey, toLex_inj, Prod.mk.injEq] at h
  obtain ⟨-, h2, h3⟩ := h
  simp [candKey_injective h2, optScoreKey_injective h3]

theorem mtIdx_le_two (m : MatchType) : mtIdx m ≤ 2 := by
  cases m <;> simp [mtIdx]

theorem mtsEnc_injective : Function.Injective mtsEnc := by
  intro l1
  induction l1 with
  | nil =>
    intro l2 h
    cases l2 with
    | nil => rfl
    | cons m t =>
      exfalso
      have := mtIdx_le_two m
      simp only [mtsEnc] at h
      omega
  | cons m t ih =>
    intro l2 h
    cases l2 with
    | nil =>
      exfalso
      have := mtIdx_le_two m
      simp only [mtsEnc] at h
      omega
    | cons m' t' =>
      simp only [mtsEnc] at h
      have hm := mtIdx_le_two m
      have hm' := mtIdx_le_two m'
      have h1 : mtIdx m = mtIdx m' := by omega
      have h2 : mtsEnc t = mtsEnc t' := by omega
      rw [mtIdx_injective h1, ih h2]

theorem entryKey_injective : Function.Injective entryKey := by
  intro a b h
  obtain ⟨p, k, sc, ms⟩ := a
  obtain ⟨p', k', sc', ms'⟩ := b
  simp only [entryKey, toLex_inj, Prod.mk.injEq, neg_inj] at h
  obtain ⟨h1, h2, h3, h4⟩ := h
  simp [h1, h2, h3, mtsEnc_injective h4]

/-! ## Helper lemmas -/

theorem insertMerged_ne_nil (e : MergedEntry) (l : List MergedEntry) :
    insertMerged e l ≠ [] := by
  cases l with
  | nil => simp [insertMerged]
  | cons x xs =>
    simp only [insertMerged]
    split <;> simp

theorem mergeStep_ne_nil (cfg : Config) (acc : List MergedEntry)
    (rc : RerankedCandidate) : mergeStep cfg acc rc ≠ [] := by
  unfold mergeStep
  split
  · simp
  · exact insertMerged_ne_nil _ _

theorem foldl_mergeStep_ne_nil (cfg : Config) (l : List RerankedCandidate)
    (acc : List MergedEntry) (h : acc ≠ []) :
    l.foldl (mergeStep cfg) acc ≠ [] := by
  induction l generalizing acc with
  | nil => exact h
  | cons rc t ih => exact ih _ (mergeStep_ne_nil cfg acc rc)

theorem mergeStage_ne_nil (cfg : Config) (rcs : List RerankedCandidate)
    (h : rcs ≠ []) : mergeStage cfg rcs ≠ [] := by
  unfold mergeStage
  cases rcs with
  | nil => exact absurd rfl h
  | cons rc t =>
    rw [List.foldl_cons]
    exact foldl_mergeStep_ne_nil cfg t _ (mergeStep_ne_nil cfg [] rc)

theorem insertMerged_map_pid (e : MergedEntry) (l : List MergedEntry) :
    (insertMerged e l).map MergedEntry.passageID =
      if e.passageID ∈ l.map MergedEntry.passageID
      then l.map MergedEntry.passageID
      else l.map MergedEntry.passageID ++ [e.passageID] := by
  induction l with
  | nil => simp [insertMerged]
  | cons x xs ih =>
    simp only [insertMerged, List.map_cons]
    by_cases hx : x.passageID = e.passageID
    · rw [if_pos hx]
      simp [mergeEntry, List.mem_cons, hx]
    · rw [if_neg hx]
      have hne : ¬ e.passageID = x.passageID := fun h => hx h.symm
      simp only [List.map_cons, ih]
      by_cases hmem : e.passageID ∈ xs.map MergedEntry.passageID
      · rw [if_pos hmem, if_pos (by simp [List.mem_cons, hmem])]
      · rw [if_neg hmem, if_neg (by simp [List.mem_cons, hne, hmem])]
        simp

theorem insertMerged_pid_nodup (e : MergedEntry) (l : List MergedEntry)
    (h : (l.map MergedEntry.passageID).Nodup) :
    ((insertMerged e l).map MergedEntry.passageID).Nodup := by
  rw [insertMerged_map_pid]
  split
  · exact h
  · rename_i hmem
    simp [List.nodup_append, h, hmem]

theorem foldl_mergeStep_pid_nodup (cfg : Config)
    (hkeep : cfg.keepNeighborDups = false) (l : List RerankedCandidate)
    (acc : List MergedEntry) (h : (acc.map MergedEntry.passageID).Nodup) :
    ((l.foldl (mergeStep cfg) acc).map MergedEntry.passageID).Nodup := by
  induction l generalizing acc with
  | nil => exact h
  | cons rc t ih =>
    rw [List.foldl_cons]
    apply ih
    have hstep : mergeStep cfg acc rc = insertMerged (toEntry rc) acc := by
      simp [mergeStep, hkeep]
    rw [hstep]
    exact insertMerged_pid_nodup _ _ h

theorem mergeStage_pid_nodup (cfg : Config)
    (hkeep : cfg.keepNeighborDups = false) (rcs : List RerankedCandidate) :
    ((mergeStage cfg rcs).map MergedEntry.passageID).Nodup :=
  foldl_mergeStep_pid_nodup cfg hkeep rcs [] (by simp)

theorem mem_compositeUnion (env : Env) (cfg : Config) (kb : Nat)
    (c : RetrievalCandidate) (h : c ∈ compositeUnion env cfg kb) :
    ∃ m ∈ cfg.modalities, ∃ cs, env.retrieve m kb = .ok cs ∧ c ∈ cs ∧
      cfg.thresholdFor m ≤ c.score := by
  rw [compositeUnion, List.mem_flatMap] at h
  obtain ⟨m, hm, hc⟩ := h
  cases hr : env.retrieve m kb with
  | error e =>
    rw [hr] at hc
    simp at hc
  | ok cs =>
    rw [hr] at hc
    rw [List.mem_filter] at hc
    exact ⟨m, hm, cs, hr, hc.1, of_decide_eq_true hc.2⟩

theorem mem_compositeUnion_of_threshold (env : Env) (cfg : Config) (kb : Nat)
    (m : Modality) (cs : List RetrievalCandidate) (c : RetrievalCandidate)
    (hm : m ∈ cfg.modalities) (hr : env.retrieve m kb = .ok cs) (hc : c ∈ cs)
    (hs : cfg.thresholdFor m ≤ c.score) : c ∈ compositeUnion env cfg kb := by
  rw [compositeUnion, List.mem_flatMap]
  refine ⟨m, hm, ?_⟩
  rw [hr]
  exact List.mem_filter.mpr ⟨hc, decide_eq_true hs⟩

theorem searchTargets_ok (env : Env) (cfg : Config) (ts : List Nat)
    (cands : List RetrievalCandidate) (h : searchTargets env cfg ts = .ok cands) :
    cands = keySort candKey
      ((ts.filterMap (fun kb => (compositeRetrieve env cfg kb).toOption)).flatMap
        (fun p => p.1)) := by
  unfold searchTargets at h
  split at h
  · exact absurd h (by simp)
  · exact (Except.ok.inj h).symm

theorem mem_searchTargets (env : Env) (cfg : Config) (ts : List Nat)
    (cands : List RetrievalCandidate) (c : RetrievalCandidate)
    (h : searchTargets env cfg ts = .ok cands) (hc : c ∈ cands) :
    ∃ kb ∈ ts, c ∈ compositeUnion env cfg kb := by
  rw [searchTargets_ok env cfg ts cands h] at hc
  have hc' := (keySort_perm candKey _).mem_iff.mp hc
  rw [List.mem_flatMap] at hc'
  obtain ⟨p, hp, hcp⟩ := hc'
  rw [List.mem_filterMap] at hp
  obtain ⟨kb, hkb, hsome⟩ := hp
  refine ⟨kb, hkb, ?_⟩
  unfold compositeRetrieve at hsome
  split at hsome
  · simp [Except.toOption] at hsome
  · simp only [Except.toOption] at hsome
    rw [← Option.some.inj hsome] at hcp
    exact hcp

theorem mem_rerankScored (batch : List RetrievalCandidate) (scores : List ℚ)
    (rc : RerankedCandidate) (h : rc ∈ rerankScored batch scores) :
    rc.cand ∈ batch := by
  induction batch generalizing scores with
  | nil => simp [rerankScored] at h
  | cons c t ih =>
    cases scores with
    | nil => simp [rerankScored] at h
    | cons q qs =>
      simp only [rerankScored, List.zipWith_cons_cons] at h
      rcases List.mem_cons.mp h with h | h
      · rw [h]
        exact List.mem_cons_self _ _
      · exact List.mem_cons_of_mem _ (ih qs h)

theorem mem_rerankChosen (cfg : Config) (scored : List RerankedCandidate)
    (rc : RerankedCandidate) (h : rc ∈ rerankChosen cfg scored) :
    rc ∈ scored := by
  simp only [rerankChosen] at h
  split at h
  · exact (List.mem_filter.mp h).1
  · exact (List.mem_filter.mp h).1

theorem mem_rerankStage (env : Env) (cfg : Config)
    (cands : List RetrievalCandidate) (rc : RerankedCandidate)
    (h : rc ∈ rerankStage env cfg cands) : rc.cand ∈ cands := by
  unfold rerankStage at h
  cases hr : env.rerank (rerankBatch cfg cands) with
  | error e =>
    rw [hr] at h
    simp only [List.mem_map] at h
    obtain ⟨c, hc, heq⟩ := h
    rw [← heq]
    exact hc
  | ok scores =>
    rw [hr] at h
    have hchosen := (keySort_perm rcKey _).mem_iff.mp h
    have hscored := mem_rerankChosen cfg _ rc hchosen
    have hbatch := mem_rerankScored _ _ _ hscored
    rw [rerankBatch] at hbatch
    exact (keySort_perm rawKey cands).mem_iff.mp
      (List.take_subset _ _ hbatch)

theorem mem_foldl_mergeStep (cfg : Config) (l : List RerankedCandidate)
    (acc : List MergedEntry) (e : MergedEntry)
    (h : e ∈ l.foldl (mergeStep cfg) acc) :
    e.passageID ∈ acc.map MergedEntry.passageID ∨
      ∃ rc ∈ l, e.passageID = rc.cand.passageID := by
  induction l generalizing acc with
  | nil => exact Or.inl (List.mem_map_of_mem _ h)
  | cons rc t ih =>
    rw [List.foldl_cons] at h
    rcases ih _ h with hacc | ⟨rc', hrc', heq⟩
    · unfold mergeStep at hacc
      split at hacc
      · rw [List.map_append] at hacc
        rcases List.mem_append.mp hacc with h1 | h1
        · exact Or.inl h1
        · right
          exact ⟨rc, List.mem_cons_self _ _, by simpa [toEntry] using h1⟩
      · rw [insertMerged_map_pid] at hacc
        split at hacc
        · exact Or.inl hacc
        · rcases List.mem_append.mp hacc with h1 | h1
          · exact Or.inl h1
          · right
            exact ⟨rc, List.mem_cons_self _ _, by simpa [toEntry] using h1⟩
    · right
      exact ⟨rc', List.mem_cons_of_mem _ hrc', heq⟩

theorem mem_mergeStage (cfg : Config) (rcs : List RerankedCandidate)
    (e : MergedEntry) (h : e ∈ mergeStage cfg rcs) :
    ∃ rc ∈ rcs, e.passageID = rc.cand.passageID := by
  rcases mem_foldl_mergeStep cfg rcs [] e h with h1 | h1
  · simp at h1
  · exact h1

theorem mem_filterTopK (cfg : Config) (l : List MergedEntry) (e : MergedEntry)
    (h : e ∈ filterTopK cfg l) : e ∈ l :=
  (keySort_perm entryKey l).mem_iff.mp (List.take_subset _ _ h)

theorem filterTopK_length (cfg : Config) (l : List MergedEntry) :
    (filterTopK cfg l).length ≤ cfg.topK :=
  List.length_take_le _ _

theorem filterTopK_ne_nil (cfg : Config) (l : List MergedEntry)
    (hK : 1 ≤ cfg.topK) (hl : l ≠ []) : filterTopK cfg l ≠ [] := by
  unfold filterTopK
  have h1 : (keySort entryKey l).length = l.length :=
    (keySort_perm entryKey l).length_eq
  intro hcontra
  have h2 := congrArg List.length hcontra
  rw [List.length_take, h1] at h2
  simp only [List.length_nil] at h2
  have hlen : l.length ≠ 0 := fun h0 => hl (List.length_eq_zero.mp h0)
  omega

theorem entryKey_le_effScore {a b : MergedEntry} (h : entryKey a ≤ entryKey b) :
    b.effScore ≤ a.effScore := by
  simp only [entryKey] at h
  rw [Prod.Lex.le_iff] at h
  rcases h with h | ⟨h, -⟩
  · simp only at h
    have := le_of_lt (neg_lt_neg_iff.mp h)
    linarith
  · simp only at h
    exact le_of_eq (neg_inj.mp h).symm

theorem rawKey_le_score {a b : RetrievalCandidate} (h : rawKey a ≤ rawKey b) :
    b.score ≤ a.score := by
  simp only [rawKey] at h
  rw [Prod.Lex.le_iff] at h
  rcases h with h | ⟨h, -⟩
  · simp only at h
    have := le_of_lt (neg_lt_neg_iff.mp h)
    linarith
  · simp only at h
    exact le_of_eq (neg_inj.mp h).symm

theorem filterTopK_sorted (cfg : Config) (l : List MergedEntry) :
    List.Sorted (fun x y => y.effScore ≤ x.effScore) (filterTopK cfg l) := by
  unfold filterTopK
  have hs : List.Sorted (fun x y => y.effScore ≤ x.effScore) (keySort entryKey l) :=
    (keySort_sorted entryKey l).imp (fun h => entryKey_le_effScore h)
  exact List.Pairwise.sublist (List.take_sublist _ _) hs

theorem rerankBatch_sorted (cfg : Config) (cands : List RetrievalCandidate) :
    List.Sorted (fun a b => b.score ≤ a.score) (rerankBatch cfg cands) := by
  unfold rerankBatch
  have hs : List.Sorted (fun a b => b.score ≤ a.score) (keySort rawKey cands) :=
    (keySort_sorted rawKey cands).imp (fun h => rawKey_le_score h)
  exact List.Pairwise.sublist (List.take_sublist _ _) hs

/-! ## Claim theorems -/

/-- Claim C2: for every knowledge base, if at least one configured modality
adapter succeeds the Composite Retrieval Engine returns the successful
modalities' threshold-filtered candidates together with the failure
diagnostic count, and it returns an error exactly when the configured
modality set is non-empty and every modality failed. -/
theorem composite_partial_failure (env : Env) (cfg : Config) (kb : Nat) :
    ((∃ m ∈ cfg.modalities, (env.retrieve m kb).isOk = true) →
      compositeRetrieve env cfg kb =
        .ok (compositeUnion env cfg kb, compositeFailCount env cfg kb)) ∧
    ((compositeRetrieve env cfg kb).isOk = false ↔
      (cfg.modalities ≠ [] ∧ ∀ m ∈ cfg.modalities,
        (env.retrieve m kb).isOk = false)) := by
  constructor
  · rintro ⟨m, hm, hok⟩
    unfold compositeRetrieve
    rw [if_neg]
    rintro ⟨-, hall⟩
    rw [hall m hm] at hok
    exact absurd hok (by simp)
  · unfold compositeRetrieve
    split
    · rename_i hcond
      exact iff_of_true rfl hcond
    · rename_i hcond
      exact iff_of_false (fun h => Bool.noConfusion h) hcond

theorem composite_partial_failure_witness :
    (∃ m ∈ cfgW2.modalities, (envW2.retrieve m 7).isOk = true) ∧
    compositeRetrieve envW2 cfgW2 7 =
      .ok (compositeUnion envW2 cfgW2 7, compositeFailCount envW2 cfgW2 7) ∧
    compositeUnion envW2 cfgW2 7 = [⟨1, 7, 2, .vector⟩] ∧
    compositeFailCount envW2 cfgW2 7 = 1 := by
  have hex : ∃ m ∈ cfgW2.modalities, (envW2.retrieve m 7).isOk = true :=
    ⟨.vector, List.mem_cons_self _ _, rfl⟩
  exact ⟨hex, (composite_partial_failure envW2 cfgW2 7).1 hex, rfl, rfl⟩

/-- Claim C1 (amended): a rerank-service failure makes the Rerank Stage
pass the untouched pre-rerank candidates through; the pipeline returns an
error exactly when every deduplicated target failed (so the caller always
receives a ranked, possibly threshold-emptied, list or that explicit
error); and when retrieval succeeded with at least one candidate and the
rerank call fails, the final output is non-empty. -/
theorem pipeline_failure_semantics (env : Env) (cfg : Config) :
    (∀ cands msg, env.rerank (rerankBatch cfg cands) = .error msg →
      rerankStage env cfg cands = cands.map (fun c => ⟨c, none⟩)) ∧
    (∀ targets, (runPipeline env cfg targets).isOk = false ↔
      (targets.dedup ≠ [] ∧ ∀ kb ∈ targets.dedup,
        (compositeRetrieve env cfg kb).isOk = false)) ∧
    (∀ targets cands msg, searchStage env cfg targets = .ok cands →
      cands ≠ [] → env.rerank (rerankBatch cfg cands) = .error msg →
      1 ≤ cfg.topK →
      ∃ out, runPipeline env cfg targets = .ok out ∧ out ≠ []) := by
  refine ⟨?_, ?_, ?_⟩
  · intro cands msg hmsg
    unfold rerankStage
    rw [hmsg]
  · intro targets
    unfold runPipeline searchStage searchTargets
    by_cases hcond : (targets.dedup ≠ [] ∧ ∀ kb ∈ targets.dedup,
        (compositeRetrieve env cfg kb).isOk = false)
    · rw [if_pos hcond]
      exact iff_of_true rfl hcond
    · rw [if_neg hcond]
      exact iff_of_false (fun h => Bool.noConfusion h) hcond
  · intro targets cands msg hsearch hne hmsg hK
    have hrr : rerankStage env cfg cands = cands.map (fun c => ⟨c, none⟩) := by
      unfold rerankStage
      rw [hmsg]
    refine ⟨filterTopK cfg (mergeStage cfg (rerankStage env cfg cands)), ?_, ?_⟩
    · unfold runPipeline
      rw [hsearch]
    · apply filterTopK_ne_nil cfg _ hK
      apply mergeStage_ne_nil
      rw [hrr]
      simpa using hne

/-- Counterexample to claim C1 as stated: the Search Stage produces one
candidate, yet the caller receives an empty list and no error — the rerank
threshold filtering (even after the degrade retry) legitimately emptied the
result. -/
theorem pipeline_empty_despite_search_success :
    searchStage envX cfgX [1] = .ok [⟨1, 1, 1, .vector⟩] ∧
    runPipeline envX cfgX [1] = .ok ([] : List MergedEntry) :=
  ⟨rfl, rfl⟩

theorem pipeline_failure_semantics_witness :
    rerankStage envF cfgX [⟨1, 1, 1, .vector⟩] = [⟨⟨1, 1, 1, .vector⟩, none⟩] ∧
    (∃ out, runPipeline envF cfgX [1] = .ok out ∧ out ≠ []) := by
  constructor
  · exact ((pipeline_failure_semantics envF cfgX).1 [⟨1, 1, 1, .vector⟩]
      "rerank service overloaded" rfl).trans rfl
  · exact (pipeline_failure_semantics envF cfgX).2.2 [1] [⟨1, 1, 1, .vector⟩]
      "rerank service overloaded" rfl (by simp) rfl (by decide)

/-- Claim C3: the batch sent to the rerank service is truncated to the
configured maximum and keeps the highest-raw-score candidates first; and
whenever the rerank call on that batch succeeds and at least one scored
candidate clears the rerank threshold, the final pipeline output is
non-empty. -/
theorem rerank_truncation (env : Env) (cfg : Config) (targets : List Nat)
    (cands : List RetrievalCandidate) :
    (rerankBatch cfg cands).length ≤ cfg.rerankMaxBatch ∧
    List.Sorted (fun a b => b.score ≤ a.score) (rerankBatch cfg cands) ∧
    (∀ scores, env.rerank (rerankBatch cfg cands) = .ok scores →
      (∃ rc ∈ rerankScored (rerankBatch cfg cands) scores,
        cfg.rerankThreshold ≤ rc.effectiveScore) →
      searchStage env cfg targets = .ok cands → 1 ≤ cfg.topK →
      ∃ out, runPipeline env cfg targets = .ok out ∧ out ≠ []) := by
  refine ⟨by unfold rerankBatch; exact List.length_take_le _ _,
    rerankBatch_sorted cfg cands, ?_⟩
  intro scores hscores hex hsearch hK
  have hchosen : rerankChosen cfg (rerankScored (rerankBatch cfg cands) scores) ≠ [] := by
    obtain ⟨rc, hrc, hthr⟩ := hex
    have hmem : rc ∈ (rerankScored (rerankBatch cfg cands) scores).filter
        (fun rc => decide (cfg.rerankThreshold ≤ rc.effectiveScore)) :=
      List.mem_filter.mpr ⟨hrc, decide_eq_true hthr⟩
    have hfne := List.ne_nil_of_mem hmem
    simp only [rerankChosen]
    rw [if_neg (by simpa using hfne)]
    exact hfne
  have hrr : rerankStage env cfg cands ≠ [] := by
    unfold rerankStage
    rw [hscores]
    exact keySort_ne_nil _ _ hchosen
  refine ⟨filterTopK cfg (mergeStage cfg (rerankStage env cfg cands)), ?_, ?_⟩
  · unfold runPipeline
    rw [hsearch]
  · exact filterTopK_ne_nil cfg _ hK (mergeStage_ne_nil cfg _ hrr)

theorem rerank_truncation_witness :
    candsT3.length = cfgT.rerankMaxBatch + 1 ∧
    candsT4.length = 2 * cfgT.rerankMaxBatch ∧
    (rerankBatch cfgT candsT3).length ≤ cfgT.rerankMaxBatch ∧
    (rerankBatch cfgT candsT4).length ≤ cfgT.rerankMaxBatch ∧
    (∃ out, runPipeline envT3 cfgT [1] = .ok out ∧ out ≠ []) ∧
    (∃ out, runPipeline envT4 cfgT [1] = .ok out ∧ out ≠ []) := by
  refine ⟨rfl, rfl, (rerank_truncation envT3 cfgT [1] candsT3).1,
    (rerank_truncation envT4 cfgT [1] candsT4).1, ?_, ?_⟩
  · refine (rerank_truncation envT3 cfgT [1] candsT3).2.2 [3, 2] rfl
      ⟨⟨⟨1, 1, 3, .vector⟩, some 3⟩, ?_, by decide⟩
      rfl (by decide)
    show (⟨⟨1, 1, 3, .vector⟩, some 3⟩ : RerankedCandidate) ∈
      ([⟨⟨1, 1, 3, .vector⟩, some 3⟩, ⟨⟨2, 1, 2, .vector⟩, some 2⟩] :
        List RerankedCandidate)
    exact List.mem_cons_self _ _
  · refine (rerank_truncation envT4 cfgT [1] candsT4).2.2 [4, 3] rfl
      ⟨⟨⟨1, 1, 4, .vector⟩, some 4⟩, ?_, by decide⟩
      rfl (by decide)
    show (⟨⟨1, 1, 4, .vector⟩, some 4⟩ : RerankedCandidate) ∈
      ([⟨⟨1, 1, 4, .vector⟩, some 4⟩, ⟨⟨2, 1, 3, .vector⟩, some 3⟩] :
        List RerankedCandidate)
    exact List.mem_cons_self _ _

/-- Claim C4: repeated knowledge-base ids are deduplicated before fan-out,
so querying a target twice yields exactly the result of querying it once. -/
theorem duplicate_targets_idempotent (env : Env) (cfg : Config) (k : Nat) :
    runPipeline env cfg [k, k] = runPipeline env cfg [k] := by
  unfold runPipeline searchStage
  have hd : ([k, k] : List Nat).dedup = ([k] : List Nat).dedup := by
    rw [List.dedup_cons_of_mem (List.mem_singleton_self k)]
  rw [hd]

/-- Claim C5: the pipeline's final output is identical for the target lists
`[a, b]` and `[b, a]`: fan-in is canonicalized and final ordering is
established deterministically, never by completion order. -/
theorem target_order_independent (env : Env) (cfg : Config) (a b : Nat) :
    runPipeline env cfg [a, b] = runPipeline env cfg [b, a] := by
  by_cases hab : a = b
  · subst hab
    rfl
  · have hs : searchStage env cfg [a, b] = searchStage env cfg [b, a] := by
      unfold searchStage
      have hd1 : ([a, b] : List Nat).dedup = [a, b] :=
        List.Nodup.dedup (by simp [hab])
      have hd2 : ([b, a] : List Nat).dedup = [b, a] :=
        List.Nodup.dedup (by simp [Ne.symm hab])
      rw [hd1, hd2]
      unfold searchTargets
      have hcond : (([a, b] : List Nat) ≠ [] ∧ ∀ kb ∈ ([a, b] : List Nat),
          (compositeRetrieve env cfg kb).isOk = false) ↔
          (([b, a] : List Nat) ≠ [] ∧ ∀ kb ∈ ([b, a] : List Nat),
          (compositeRetrieve env cfg kb).isOk = false) := by
        constructor <;> rintro ⟨-, h2⟩ <;>
          exact ⟨by simp, fun kb hkb => h2 kb (by simp at hkb ⊢; tauto)⟩
      by_cases h1 : (([a, b] : List Nat) ≠ [] ∧ ∀ kb ∈ ([a, b] : List Nat),
          (compositeRetrieve env cfg kb).isOk = false)
      · rw [if_pos h1, if_pos (hcond.mp h1)]
      · rw [if_neg h1, if_neg (fun h => h1 (hcond.mpr h))]
        congr 1
        apply keySort_eq_of_perm candKey candKey_injective
        rcases hA : (compositeRetrieve env cfg a).toOption with _ | pa <;>
            rcases hB : (compositeRetrieve env cfg b).toOption with _ | pb <;>
            simp only [List.filterMap_cons, List.filterMap_nil, hA, hB,
              List.flatMap_cons, List.flatMap_nil, List.append_nil] <;>
            first
              | exact List.Perm.refl _
              | exact List.perm_append_comm
    unfold runPipeline
    rw [hs]

/-- Claim C6: every successful pipeline output is sorted by descending
effective score, has at most top-K entries, and (when neighbor-expansion
duplicates are not configured) references each passage identifier at most
once. -/
theorem pipeline_output_invariants (env : Env) (cfg : Config)
    (targets : List Nat) (out : List MergedEntry)
    (h : runPipeline env cfg targets = .ok out) :
    List.Sorted (fun x y => y.effScore ≤ x.effScore) out ∧
    out.length ≤ cfg.topK ∧
    (cfg.keepNeighborDups = false → (out.map MergedEntry.passageID).Nodup) := by
  unfold runPipeline at h
  cases hsearch : searchStage env cfg targets with
  | error e =>
    rw [hsearch] at h
    exact absurd h (by simp)
  | ok cands =>
    rw [hsearch] at h
    have hout := (Except.ok.inj h).symm
    subst hout
    refine ⟨filterTopK_sorted cfg _, filterTopK_length cfg _, fun hkeep => ?_⟩
    have hmerge := mergeStage_pid_nodup cfg hkeep (rerankStage env cfg cands)
    unfold filterTopK
    rw [List.map_take]
    have hperm := (keySort_perm entryKey
      (mergeStage cfg (rerankStage env cfg cands))).map MergedEntry.passageID
    exact List.Nodup.sublist (List.take_sublist _ _) (hperm.nodup_iff.mpr hmerge)

theorem pipeline_output_invariants_witness :
    runPipeline envT3 cfgT [1] =
      .ok [⟨1, 1, 3, [.vector]⟩, ⟨2, 1, 2, [.vector]⟩] ∧
    List.Sorted (fun x y : MergedEntry => y.effScore ≤ x.effScore)
      [⟨1, 1, 3, [.vector]⟩, ⟨2, 1, 2, [.vector]⟩] ∧
    ([⟨1, 1, 3, [.vector]⟩, ⟨2, 1, 2, [.vector]⟩] :
      List MergedEntry).length ≤ cfgT.topK ∧
    (([⟨1, 1, 3, [.vector]⟩, ⟨2, 1, 2, [.vector]⟩] : List MergedEntry).map
      MergedEntry.passageID).Nodup := by
  have h : runPipeline envT3 cfgT [1] =
      .ok [⟨1, 1, 3, [.vector]⟩, ⟨2, 1, 2, [.vector]⟩] := rfl
  obtain ⟨h1, h2, h3⟩ := pipeline_output_invariants envT3 cfgT [1] _ h
  exact ⟨h, h1, h2, h3 rfl⟩

/-- Claim C7: every passage in the final output is witnessed by a candidate
that cleared its producing modality's threshold (so a candidate strictly
below threshold never appears), and a candidate scored exactly at the
threshold survives the Composite Retrieval Engine's filter (boundary
inclusive). -/
theorem threshold_semantics (env : Env) (cfg : Config) :
    (∀ targets out, runPipeline env cfg targets = .ok out →
      ∀ e ∈ out, ∃ m ∈ cfg.modalities, ∃ kb cs c,
        env.retrieve m kb = .ok cs ∧ c ∈ cs ∧
        cfg.thresholdFor m ≤ c.score ∧ e.passageID = c.passageID) ∧
    (∀ (m : Modality) (kb : Nat) (cs : List RetrievalCandidate)
      (c : RetrievalCandidate), m ∈ cfg.modalities →
      env.retrieve m kb = .ok cs → c ∈ cs →
      c.score = cfg.thresholdFor m → c ∈ compositeUnion env cfg kb) := by
  constructor
  · intro targets out h e he
    unfold runPipeline at h
    cases hsearch : searchStage env cfg targets with
    | error er =>
      rw [hsearch] at h
      exact absurd h (by simp)
    | ok cands =>
      rw [hsearch] at h
      have hout := (Except.ok.inj h).symm
      subst hout
      have he1 := mem_filterTopK cfg _ e he
      obtain ⟨rc, hrc, hpid⟩ := mem_mergeStage cfg _ e he1
      have hc := mem_rerankStage env cfg cands rc hrc
      have hst : searchTargets env cfg targets.dedup = .ok cands := hsearch
      obtain ⟨kb, hkb, hcu⟩ :=
        mem_searchTargets env cfg targets.dedup cands rc.cand hst hc
      obtain ⟨m, hm, cs, hr, hcs, hthr⟩ :=
        mem_compositeUnion env cfg kb rc.cand hcu
      exact ⟨m, hm, kb, cs, rc.cand, hr, hcs, hthr, hpid⟩
  · intro m kb cs c hm hr hc heq
    exact mem_compositeUnion_of_threshold env cfg kb m cs c hm hr hc
      (le_of_eq heq.symm)

theorem threshold_semantics_witness :
    runPipeline envW2 cfgW2 [7] = .ok [⟨1, 7, 1, [.vector]⟩] ∧
    (∃ m ∈ cfgW2.modalities, ∃ kb cs c, envW2.retrieve m kb = .ok cs ∧
      c ∈ cs ∧ cfgW2.thresholdFor m ≤ c.score ∧
      (⟨1, 7, 1, [.vector]⟩ : MergedEntry).passageID = c.passageID) ∧
    (⟨1, 7, 2, .vector⟩ : RetrievalCandidate) ∈ compositeUnion envW2 cfgW2 7 := by
  have h : runPipeline envW2 cfgW2 [7] = .ok [⟨1, 7, 1, [.vector]⟩] := rfl
  refine ⟨h, ?_, ?_⟩
  · exact (threshold_semantics envW2 cfgW2).1 [7] _ h _ (List.mem_cons_self _ _)
  · exact (threshold_semantics envW2 cfgW2).2 .vector 7 [⟨1, 7, 2, .vector⟩]
      ⟨1, 7, 2, .vector⟩ (List.mem_cons_self _ _) rfl (List.mem_cons_self _ _) rfl
end Retrieval
